import Mathlib

/-!
Shallow embedding of the counter-app core (github.com/iben12/counter-app).

Frequency Calculator (internal/db): `ParseFrequency` and the
timezone-aware `NextExpiryTime(freq, now, timezone)`.

Count Lifecycle Manager (internal/models): `GetOrCreateCurrentCount`,
`createNewCount`, `IncrementCurrentCount` over a pgx-backed store.

Modelling conventions:
- instants are `Int` seconds since the Unix epoch (UTC); the repository's
  timestamps are `time.Time` values, and every claim is stated at whole-second
  resolution, where Go's float `Hours()` arithmetic agrees with exact integer
  division;
- a resolved timezone location is a fixed UTC offset in seconds (`Loc`);
  an unresolvable identifier is `Loc.unresolvable`;
- Go's `time.Time.Truncate (24 * time.Hour)` rounds the absolute instant down
  to a multiple of 24h counted from the zero time, which in Unix seconds is
  flooring to a multiple of 86400 (UTC midnight), regardless of the value's
  location — modelled by `trunc24`;
- Go's `int`/`int64` division truncates toward zero: `Int.tdiv`/`Int.emod`
  are used explicitly; int64 addition wraps, modelled by `wrap64`;
- `strconv.Atoi` saturates at `math.MaxInt64` on range error, and
  `ParseFrequency` discards that error — modelled by `atoiSat`;
- the pgx store is a `DB` record; collaborator I/O failures are injected
  through the `Fail` flags, one per statement the core issues.
-/

/-- Failure kinds surfaced by the core (Go `error` values, distinguished by
their origin). -/
inductive Err where
  | invalidFormat
  | invalidTimezone
  | counterNotFound
  | invalidDelta
  | storeFailure
  | noRows
  deriving DecidableEq, Repr

/-- A resolved timezone ruleset: a fixed UTC offset in seconds (east positive),
or an identifier `time.LoadLocation` cannot resolve. -/
inductive Loc where
  | fixedOffset (offsetSeconds : Int)
  | unresolvable
  deriving DecidableEq, Repr

/-- Decimal value of a digit string, as computed by `strconv.Atoi`'s
accumulation loop. -/
def digitsVal (ds : List Char) : Nat :=
  ds.foldl (fun acc c => acc * 10 + (c.toNat - '0'.toNat)) 0

def maxInt64 : Int := 2 ^ 63 - 1

/-- `strconv.Atoi` on a pure digit string: exact below `2^63`, clamped to
`math.MaxInt64` on range error (the range error itself is discarded by
`ParseFrequency`). -/
def atoiSat (ds : List Char) : Int :=
  min ((digitsVal ds : Int)) maxInt64

/-- `ParseFrequency` (internal/db/frequency.go): matches the anchored regex
`(\d+)([hdw])` against the whole string; on a match returns
`strconv.Atoi` of the digit group and the unit character, otherwise an
invalid-format error. Since `h`, `d`, `w` are not digits, the greedy `\d+`
group is exactly the maximal digit prefix and the rest must be a single
unit character. -/
def parseFrequency (freq : String) : Except Err (Int × Char) :=
  match freq.data.dropWhile Char.isDigit with
  | [u] =>
      if (u = 'h' ∨ u = 'd' ∨ u = 'w') ∧ freq.data.takeWhile Char.isDigit ≠ [] then
        .ok (atoiSat (freq.data.takeWhile Char.isDigit), u)
      else
        .error .invalidFormat
  | _ => .error .invalidFormat

/-- Go `time.Time.Truncate (24 * time.Hour)`: floor the absolute instant to a
multiple of 86400 seconds since the Unix epoch (UTC midnight). -/
def trunc24 (t : Int) : Int :=
  86400 * Int.fdiv t 86400

/-- `NextExpiryTime(freq, now, timezone)` (internal/db/frequency.go), the
timezone-aware variant called by the models layer. `now` is a UTC instant;
the `.UTC()` presentation changes in the source do not change the instant and
are omitted. `time.Date(1970,1,1,0,0,0,0,loc)` is the instant `-off`;
`AddDate(0,0,k)` at a fixed offset adds `k*86400` seconds;
`nowInTZ.Hour()` is the local civil hour; `int(d.Hours()/24)` and
`int(d.Hours()/(24*7))` truncate toward zero. -/
def nextExpiryTime (freq : String) (now : Int) (timezone : Loc) :
    Except Err Int :=
  match parseFrequency freq with
  | .error e => .error e
  | .ok (n, unit) =>
    match timezone with
    | .unresolvable => .error .invalidTimezone
    | .fixedOffset off =>
      match unit with
      | 'h' =>
          let hoursSinceMidnight := Int.tdiv (Int.emod (now + off) 86400) 3600
          let nextBoundaryHour := (Int.tdiv hoursSinceMidnight n + 1) * n
          if 24 ≤ nextBoundaryHour then
            .ok (trunc24 (now + 86400))
          else
            .ok (trunc24 now + nextBoundaryHour * 3600)
      | 'd' =>
          let epoch : Int := -off
          let daysSinceEpoch := Int.tdiv (now - epoch) 86400
          let nextBoundaryDay := (Int.tdiv daysSinceEpoch n + 1) * n
          .ok (trunc24 (epoch + nextBoundaryDay * 86400))
      | 'w' =>
          let epoch : Int := 4 * 86400 - off
          let weeksSinceEpoch := Int.tdiv (now - epoch) (7 * 86400)
          let nextBoundaryWeek := (Int.tdiv weeksSinceEpoch n + 1) * n
          .ok (trunc24 (epoch + nextBoundaryWeek * 7 * 86400))
      | _ => .error .invalidFormat

/-- Row of the `counters` table. -/
structure CounterRow where
  id : Nat
  name : String
  frequency : String
  timezone : Loc
  createdAt : Int
  deriving DecidableEq, Repr

/-- Row of the `counts` table; `id` is a `SERIAL` surrogate key assigned in
creation order. -/
structure CountRow where
  id : Nat
  counterId : Nat
  value : Int
  expiry : Int
  createdAt : Int
  deriving DecidableEq, Repr

/-- The persistent store: both tables plus the counts sequence counter. -/
structure DB where
  counters : List CounterRow
  counts : List CountRow
  nextCountId : Nat
  deriving DecidableEq, Repr

/-- Collaborator I/O failure injection: one flag per SQL statement the core
issues (counter lookup, latest-count query, count insert, count update). -/
structure Fail where
  counterQ : Bool
  latestQ : Bool
  insertQ : Bool
  updateQ : Bool
  deriving DecidableEq, Repr

def noFail : Fail := ⟨false, false, false, false⟩

/-- `SELECT ... FROM counts WHERE counter_id = $1 ORDER BY id DESC LIMIT 1`:
the row with the greatest `id` among the counter's rows, if any. -/
def latestCount (st : DB) (cid : Nat) : Option CountRow :=
  (st.counts.filter (fun r => r.counterId = cid)).argmax (fun r => r.id)

/-- `GetCounterByID` (internal/models/models.go): single-row lookup; a missing
row surfaces pgx's no-rows error (the spec's CounterNotFound), a store failure
is returned as-is. -/
def getCounterByID (f : Fail) (st : DB) (cid : Nat) : Except Err CounterRow :=
  if f.counterQ then .error .storeFailure
  else
    match st.counters.find? (fun c => c.id = cid) with
    | some c => .ok c
    | none => .error .counterNotFound

/-- `createNewCount` (internal/models/models.go): computes the expiry with
`db.NextExpiryTime(frequency, now, timezone)` and inserts a fresh row with
value 0; `created_at` defaults to the insertion instant. Errors are returned
without touching the store. -/
def createNewCount (f : Fail) (st : DB) (counterID : Nat) (frequency : String)
    (timezone : Loc) (now : Int) : Except Err CountRow × DB :=
  match nextExpiryTime frequency now timezone with
  | .error e => (.error e, st)
  | .ok expiry =>
    if f.insertQ then (.error .storeFailure, st)
    else
      let row : CountRow := ⟨st.nextCountId, counterID, 0, expiry, now⟩
      (.ok row,
       { st with counts := st.counts ++ [row],
                 nextCountId := st.nextCountId + 1 })

/-- `GetOrCreateCurrentCount` (internal/models/models.go lines 84-112). The
source treats ANY error of the latest-count query — pgx.ErrNoRows and I/O
failures alike — as "no count exists yet" and calls `createNewCount`; an
existing row is kept exactly when `time.Now().UTC().After(expiry)` is false,
i.e. unless its expiry is strictly before `now`. -/
def getOrCreateCurrentCount (f : Fail) (st : DB) (counterID : Nat)
    (now : Int) : Except Err CountRow × DB :=
  match getCounterByID f st counterID with
  | .error e => (.error e, st)
  | .ok counter =>
    if f.latestQ then
      createNewCount f st counterID counter.frequency counter.timezone now
    else
      match latestCount st counterID with
      | none => createNewCount f st counterID counter.frequency counter.timezone now
      | some c =>
        if c.expiry < now then
          createNewCount f st counterID counter.frequency counter.timezone now
        else
          (.ok c, st)

/-- Two's-complement wraparound of Go `int64` addition. -/
def wrap64 (x : Int) : Int :=
  (x + 2 ^ 63) % 2 ^ 64 - 2 ^ 63

/-- The value computation of `IncrementCurrentCount`:
`newValue := current.Value + delta` (int64, wrapping) clamped to zero. -/
def applyDeltaValue (value delta : Int) : Int :=
  let newValue := wrap64 (value + delta)
  if newValue < 0 then 0 else newValue

/-- `IncrementCurrentCount` (internal/models/models.go lines 139-171):
rejects a zero delta before touching the store, resolves the current count
via `GetOrCreateCurrentCount`, computes the clamped value and issues
`UPDATE counts SET value = $1 WHERE id = $2 RETURNING ...` against the
resolved row's id. -/
def incrementCurrentCount (f : Fail) (st : DB) (counterID : Nat)
    (delta : Int) (now : Int) : Except Err CountRow × DB :=
  if delta = 0 then (.error .invalidDelta, st)
  else
    match getOrCreateCurrentCount f st counterID now with
    | (.error e, st1) => (.error e, st1)
    | (.ok current, st1) =>
      let newValue := applyDeltaValue current.value delta
      if f.updateQ then (.error .storeFailure, st1)
      else
        match st1.counts.find? (fun r => r.id = current.id) with
        | none => (.error .noRows, st1)
        | some r =>
          (.ok { r with value := newValue },
           { st1 with
               counts := st1.counts.map (fun q =>
                 if q.id = current.id then { q with value := newValue } else q) })

/-- Well-formedness the SERIAL key guarantees: every stored count id is below
the sequence value, and ids are pairwise distinct. -/
def WF (st : DB) : Prop :=
  (∀ r ∈ st.counts, r.id < st.nextCountId) ∧
  st.counts.Pairwise (fun a b => a.id ≠ b.id)

/-- All stored count values are non-negative. -/
def ValuesWF (st : DB) : Prop := ∀ r ∈ st.counts, 0 ≤ r.value

/-- A store with one counter (frequency "1h", timezone UTC) and no counts. -/
def stFreshC1 : DB := ⟨[⟨1, "a", "1h", Loc.fixedOffset 0, 0⟩], [], 0⟩

/-- A store whose only count expires exactly at instant 3600. -/
def stBoundaryC1 : DB :=
  ⟨[⟨1, "a", "1h", Loc.fixedOffset 0, 0⟩], [⟨0, 1, 5, 3600, 0⟩], 1⟩

/-- A store with one counter (frequency "1h", timezone UTC) and no counts. -/
def stFreshC2 : DB := ⟨[⟨1, "a", "1h", Loc.fixedOffset 0, 0⟩], [], 0⟩

/-- A store whose only count has value 3 and expiry 3600. -/
def stValueC2 : DB :=
  ⟨[⟨1, "a", "1h", Loc.fixedOffset 0, 0⟩], [⟨0, 1, 3, 3600, 0⟩], 1⟩

/-- A store whose only count has value 3 and expiry 3600. -/
def stRowC8 : DB :=
  ⟨[⟨1, "a", "1h", Loc.fixedOffset 0, 0⟩], [⟨0, 1, 3, 3600, 0⟩], 1⟩

/-- Failure injection: only the latest-count query fails. -/
def failLatestC10 : Fail := ⟨false, true, false, false⟩

/-- A store whose counter 1 has an unexpired count (value 5, expiry 10^9). -/
def stC10 : DB :=
  ⟨[⟨1, "a", "1h", Loc.fixedOffset 0, 0⟩], [⟨0, 1, 5, 1000000000, 0⟩], 1⟩

/-! ## Helper lemmas -/

theorem takeWhile_append_singleton {p : Char → Bool} {ds : List Char} {u : Char}
    (hds : ∀ c ∈ ds, p c = true) (hu : p u = false) :
    (ds ++ [u]).takeWhile p = ds ∧ (ds ++ [u]).dropWhile p = [u] := by
  induction ds with
  | nil => simp [List.takeWhile, List.dropWhile, hu]
  | cons a t ih =>
    have ha : p a = true := hds a (by simp)
    have ht : ∀ c ∈ t, p c = true := fun c hc => hds c (by simp [hc])
    obtain ⟨h1, h2⟩ := ih ht
    simp [List.takeWhile_cons, List.dropWhile_cons, ha, h1, h2]

theorem find_of_mem_pairwise {l : List CountRow} {cur : CountRow}
    (hp : l.Pairwise (fun a b => a.id ≠ b.id)) (hm : cur ∈ l) :
    l.find? (fun r => r.id = cur.id) = some cur := by
  induction l with
  | nil => cases hm
  | cons a t ih =>
    rcases List.mem_cons.1 hm with rfl | hmt
    · rw [List.find?_cons_of_pos _ (by simp)]
    · have hne : a.id ≠ cur.id := (List.pairwise_cons.1 hp).1 cur hmt
      rw [List.find?_cons_of_neg _ (by simp [hne])]
      exact ih (List.pairwise_cons.1 hp).2 hmt

theorem latestCount_mem {st : DB} {cid : Nat} {c : CountRow}
    (h : latestCount st cid = some c) : c ∈ st.counts := by
  unfold latestCount at h
  exact List.mem_of_mem_filter (List.argmax_mem h)

theorem wf_push {st : DB} (hwf : WF st) (c : CountRow)
    (hc : c.id = st.nextCountId) :
    WF { st with counts := st.counts ++ [c],
                 nextCountId := st.nextCountId + 1 } := by
  obtain ⟨hlt, hpw⟩ := hwf
  constructor
  · intro r hr
    rcases List.mem_append.1 hr with h | h
    · exact Nat.lt_succ_of_lt (hlt r h)
    · simp only [List.mem_singleton] at h
      subst h
      simp [hc]
  · rw [List.pairwise_append]
    refine ⟨hpw, by simp, fun a ha b hb => ?_⟩
    simp only [List.mem_singleton] at hb
    subst hb
    have := hlt a ha
    omega

theorem createNewCount_ok {st st1 : DB} {cid : Nat} {freq : String} {tz : Loc}
    {now : Int} {cur : CountRow}
    (h : createNewCount noFail st cid freq tz now = (.ok cur, st1)) :
    cur = ⟨st.nextCountId, cid, 0, cur.expiry, now⟩ ∧
    st1 = { st with counts := st.counts ++ [cur],
                    nextCountId := st.nextCountId + 1 } := by
  unfold createNewCount at h
  cases he : nextExpiryTime freq now tz with
  | error e => rw [he] at h; simp at h
  | ok E =>
    rw [he] at h
    simp only [noFail, Bool.false_eq_true, if_false] at h
    obtain ⟨h1, h2⟩ := Prod.mk.injEq .. ▸ h
    cases h1
    exact ⟨rfl, h2.symm⟩

theorem gcc_ok_cases {st st1 : DB} {cid : Nat} {now : Int} {cur : CountRow}
    (h : getOrCreateCurrentCount noFail st cid now = (.ok cur, st1)) :
    (st1 = st ∧ cur ∈ st.counts) ∨
    (cur = ⟨st.nextCountId, cid, 0, cur.expiry, now⟩ ∧
     st1 = { st with counts := st.counts ++ [cur],
                     nextCountId := st.nextCountId + 1 }) := by
  unfold getOrCreateCurrentCount at h
  cases hg : getCounterByID noFail st cid with
  | error e => rw [hg] at h; simp at h
  | ok ctr =>
    rw [hg] at h
    simp only [noFail, Bool.false_eq_true, if_false] at h
    cases hl : latestCount st cid with
    | none =>
      rw [hl] at h
      exact Or.inr (createNewCount_ok h)
    | some c =>
      rw [hl] at h
      have h2 : (if c.expiry < now then
          createNewCount noFail st cid ctr.frequency ctr.timezone now
        else (Except.ok c, st)) = (Except.ok cur, st1) := h
      by_cases hexp : c.expiry < now
      · rw [if_pos hexp] at h2
        exact Or.inr (createNewCount_ok h2)
      · rw [if_neg hexp] at h2
        obtain ⟨ha, hb⟩ := Prod.mk.injEq .. ▸ h2
        cases ha
        exact Or.inl ⟨hb.symm, latestCount_mem hl⟩

theorem gcc_ok_find {st st1 : DB} {cid : Nat} {now : Int} {cur : CountRow}
    (hwf : WF st)
    (h : getOrCreateCurrentCount noFail st cid now = (.ok cur, st1)) :
    st1.counts.find? (fun r => r.id = cur.id) = some cur := by
  rcases gcc_ok_cases h with ⟨rfl, hm⟩ | ⟨hcur, rfl⟩
  · exact find_of_mem_pairwise hwf.2 hm
  · have hid : cur.id = st.nextCountId := congrArg CountRow.id hcur
    have hwf1 := wf_push hwf cur hid
    exact find_of_mem_pairwise hwf1.2 (by simp)

theorem createNewCount_valuesWF {f : Fail} {st : DB} {cid : Nat}
    {freq : String} {tz : Loc} {now : Int} (h : ValuesWF st) :
    ValuesWF (createNewCount f st cid freq tz now).2 := by
  unfold createNewCount
  cases he : nextExpiryTime freq now tz with
  | error e => exact h
  | ok E =>
    by_cases hf : f.insertQ
    · simp only [hf, if_true]
      exact h
    · simp only [hf, Bool.false_eq_true, if_false]
      intro r hr
      rcases List.mem_append.1 hr with hm | hm
      · exact h r hm
      · simp only [List.mem_singleton] at hm
        subst hm
        exact le_refl 0

theorem gcc_valuesWF {f : Fail} {st : DB} {cid : Nat} {now : Int}
    (h : ValuesWF st) :
    ValuesWF (getOrCreateCurrentCount f st cid now).2 := by
  unfold getOrCreateCurrentCount
  cases hg : getCounterByID f st cid with
  | error e => exact h
  | ok ctr =>
    by_cases hf : f.latestQ
    · simp only [hf, if_true]
      exact createNewCount_valuesWF h
    · simp only [hf, Bool.false_eq_true, if_false]
      cases hl : latestCount st cid with
      | none => exact createNewCount_valuesWF h
      | some c =>
        show ValuesWF ((if c.expiry < now then
            createNewCount f st cid ctr.frequency ctr.timezone now
          else (Except.ok c, st)).2)
        by_cases hexp : c.expiry < now
        · rw [if_pos hexp]
          exact createNewCount_valuesWF h
        · rw [if_neg hexp]
          exact h

theorem applyDeltaValue_nonneg (v d : Int) : 0 ≤ applyDeltaValue v d := by
  show 0 ≤ if wrap64 (v + d) < 0 then 0 else wrap64 (v + d)
  split <;> omega

/-! ## Claim theorems -/

/-- Claim C7: calling the delta-apply operation with delta = 0 fails with the
invalid-delta error and leaves the store completely untouched, whatever the
store contents and failure flags are. -/
theorem incrementCurrentCount_zero_delta (f : Fail) (st : DB) (cid : Nat)
    (now : Int) :
    incrementCurrentCount f st cid 0 now = (.error .invalidDelta, st) := by
  unfold incrementCurrentCount
  rw [if_pos rfl]

/-- Claim C4 (failing evaluation): with specifier "1h", timezone UTC+02:00
(e.g. the resolvable IANA zone Etc/GMT-2) and now = 1970-01-01 23:00:00 UTC
(Unix 82800, local 01:00 on Jan 2), `NextExpiryTime` returns Unix 7200
(1970-01-01 02:00 UTC), an instant BEFORE `now` — because
`Truncate(24*time.Hour)` floors to UTC midnight, not local midnight. -/
theorem nextExpiryTime_not_after_now :
    nextExpiryTime "1h" 82800 (Loc.fixedOffset 7200) = .ok 7200 ∧
    ¬ (82800 : Int) < 7200 := ⟨rfl, by decide⟩

/-- Claim C5 (failing evaluation): with specifier "1w", timezone UTC+02:00 and
now = Unix 338500 (100 s after the local-midnight Monday anchor
1970-01-05 00:00+02:00 = Unix 338400), `NextExpiryTime` returns Unix 864000,
which is NOT anchor + a whole number of weeks: 864000 - 338400 = 525600 is not
divisible by 604800. The trailing `Truncate(24*time.Hour)` floors the correct
boundary 943200 to UTC midnight. -/
theorem nextExpiryTime_week_misaligned :
    nextExpiryTime "1w" 338500 (Loc.fixedOffset 7200) = .ok 864000 ∧
    Int.emod (864000 - 338400) 604800 ≠ 0 := ⟨rfl, by decide⟩

/-- Claim C6 (failing evaluation): with specifier "1h", timezone UTC+02:00 and
now = Unix 75600 (1970-01-01 21:00 UTC, local 23:00), the local hour is 23 so
next = 24 and the claim demands local midnight of the next local calendar day,
1970-01-02 00:00+02:00 = Unix 79200; the code instead returns Unix 86400
(1970-01-02 00:00 UTC, local 02:00) because `Truncate(24*time.Hour)` floors
to UTC midnight. -/
theorem nextExpiryTime_hour_not_local_midnight :
    nextExpiryTime "1h" 75600 (Loc.fixedOffset 7200) = .ok 86400 ∧
    (86400 : Int) ≠ 79200 := ⟨rfl, by decide⟩

/-- Claim C10 (failing evaluation): when the latest-count query fails with a
store error while counter 1 holds an unexpired count, `GetOrCreateCurrentCount`
does not surface the failure: it treats it as "no count exists", inserts a
fresh zero-valued count and returns it with no error. -/
theorem getOrCreateCurrentCount_swallows_store_failure :
    getOrCreateCurrentCount failLatestC10 stC10 1 100 =
      (.ok ⟨1, 1, 0, 3600, 100⟩,
       { stC10 with counts := stC10.counts ++ [⟨1, 1, 0, 3600, 100⟩],
                    nextCountId := 2 }) ∧
    stC10.counts = [⟨0, 1, 5, 1000000000, 0⟩] := ⟨rfl, rfl⟩

/-- Claim C1 (counterexample): with the only count expiring exactly at
instant 3600 and now = 3600 ("expiry at or before now" in the claim's words),
the code returns the existing count (value 5) unchanged and inserts nothing,
because `time.Now().UTC().After(expiry)` is strict; the claim predicts a
brand-new zero-valued count. -/
theorem getOrCreateCurrentCount_boundary_counterexample :
    getOrCreateCurrentCount noFail stBoundaryC1 1 3600 =
      (.ok ⟨0, 1, 5, 3600, 0⟩, stBoundaryC1) ∧
    (⟨0, 1, 5, 3600, 0⟩ : CountRow).value ≠ 0 := ⟨rfl, by decide⟩

/-- Claim C2 (counterexample): after two delta applications from a fresh
counter — first delta 2^63 - 1, then delta 1 within the same epoch — the
stored value is 0, while the claim's formula max(0, currentValue + delta)
gives 2^63: Go int64 addition wraps before the clamp. -/
theorem incrementCurrentCount_overflow_counterexample :
    (incrementCurrentCount noFail
        (incrementCurrentCount noFail stFreshC2 1 (2 ^ 63 - 1) 0).2
        1 1 0).1 = .ok ⟨0, 1, 0, 3600, 0⟩ ∧
    max 0 ((2 ^ 63 - 1) + 1) ≠ (0 : Int) := ⟨rfl, by decide⟩

/-- Claim C3 (counterexample): the digit string of
"9223372036854775808h" denotes 2^63, but `ParseFrequency` accepts the
specifier and returns 2^63 - 1: `strconv.Atoi` clamps at math.MaxInt64 and
its range error is discarded, so the returned multiplier is not the exact
numeric prefix. -/
theorem parseFrequency_saturation_counterexample :
    parseFrequency "9223372036854775808h" =
      .ok (9223372036854775807, 'h') ∧
    (9223372036854775807 : Int) ≠ 9223372036854775808 := ⟨rfl, by decide⟩

/-- Claim C9 (counterexample): "0h" matches the grammar `\d+[hdw]`, so
`ParseFrequency` accepts it and returns multiplier 0, which is not ≥ 1. -/
theorem parseFrequency_zero_counterexample :
    parseFrequency "0h" = .ok (0, 'h') ∧ ¬ (1 : Int) ≤ 0 := ⟨rfl, by decide⟩

/-- Claim C1 (amended): with the counter resolvable, `GetOrCreateCurrentCount`
looks up the count with the greatest id; if its expiry is NOT strictly before
now it is returned unchanged with no store mutation; if no count exists or the
latest one's expiry is strictly before now, a brand-new count with value 0 and
expiry `NextExpiryTime(counter.frequency, now, counter.timezone)` is inserted
and returned. (The claim's "expiry at or before now" case is wrong at
equality: the code keeps the existing count then.) -/
theorem getOrCreateCurrentCount_spec (st : DB) (cid : Nat) (now : Int)
    (ctr : CounterRow) (hc : getCounterByID noFail st cid = .ok ctr) :
    (∀ c, latestCount st cid = some c → ¬ c.expiry < now →
        getOrCreateCurrentCount noFail st cid now = (.ok c, st))
    ∧ (∀ E, nextExpiryTime ctr.frequency now ctr.timezone = .ok E →
        (latestCount st cid = none ∨
         (∃ c, latestCount st cid = some c ∧ c.expiry < now)) →
        getOrCreateCurrentCount noFail st cid now =
          (.ok ⟨st.nextCountId, cid, 0, E, now⟩,
           { st with
               counts := st.counts ++ [⟨st.nextCountId, cid, 0, E, now⟩],
               nextCountId := st.nextCountId + 1 })) := by
  constructor
  · intro c hl hne
    unfold getOrCreateCurrentCount
    rw [hc, hl]
    show (if c.expiry < now then
        createNewCount noFail st cid ctr.frequency ctr.timezone now
      else (Except.ok c, st)) = _
    rw [if_neg hne]
  · intro E hE hcase
    have hcreate : createNewCount noFail st cid ctr.frequency ctr.timezone now =
        (.ok ⟨st.nextCountId, cid, 0, E, now⟩,
         { st with
             counts := st.counts ++ [⟨st.nextCountId, cid, 0, E, now⟩],
             nextCountId := st.nextCountId + 1 }) := by
      unfold createNewCount
      rw [hE]
      rfl
    rcases hcase with hl | ⟨c, hl, hexp⟩
    · unfold getOrCreateCurrentCount
      rw [hc, hl]
      exact hcreate
    · unfold getOrCreateCurrentCount
      rw [hc, hl]
      show (if c.expiry < now then
          createNewCount noFail st cid ctr.frequency ctr.timezone now
        else (Except.ok c, st)) = _
      rw [if_pos hexp]
      exact hcreate

/-- Claim C1 witness: on a store with counter 1 (frequency "1h", timezone UTC)
and no counts, at now = 0 the operation inserts and returns the fresh count
(id 0, value 0, expiry 3600, created at 0). -/
theorem getOrCreateCurrentCount_spec_witness :
    getOrCreateCurrentCount noFail stFreshC1 1 0 =
      (.ok ⟨0, 1, 0, 3600, 0⟩,
       { stFreshC1 with counts := stFreshC1.counts ++ [⟨0, 1, 0, 3600, 0⟩],
                        nextCountId := 1 }) :=
  (getOrCreateCurrentCount_spec stFreshC1 1 0
      ⟨1, "a", "1h", Loc.fixedOffset 0, 0⟩ rfl).2 3600 rfl (Or.inl rfl)

/-- Claim C2 (amended): count values never go negative — a successful delta
application returns a non-negative value and preserves non-negativity of every
stored count; the clamp equals max(0, currentValue + delta) whenever the sum
fits in int64 (on overflow the int64 sum wraps before clamping, see the
counterexample); and every freshly created count starts at value 0. -/
theorem countValue_nonneg_clamped :
    (∀ f st cid delta now c st1, ValuesWF st →
        incrementCurrentCount f st cid delta now = (.ok c, st1) →
        0 ≤ c.value ∧ ValuesWF st1)
    ∧ (∀ v d : Int, -(2 ^ 63) ≤ v + d → v + d < 2 ^ 63 →
        applyDeltaValue v d = max 0 (v + d))
    ∧ (∀ f st cid freq tz now c st1,
        createNewCount f st cid freq tz now = (.ok c, st1) → c.value = 0) := by
  refine ⟨?incr, ?clamp, ?fresh⟩
  case incr =>
    intro f st cid delta now c st1 hv h
    unfold incrementCurrentCount at h
    by_cases hd : delta = 0
    · rw [if_pos hd] at h
      simp at h
    · rw [if_neg hd] at h
      have hmid : ValuesWF (getOrCreateCurrentCount f st cid now).2 :=
        gcc_valuesWF hv
      rcases hgc : getOrCreateCurrentCount f st cid now with ⟨res, stMid⟩
      rw [hgc] at h hmid
      cases res with
      | error e =>
        have h2 : ((Except.error e : Except Err CountRow), stMid) =
            (Except.ok c, st1) := h
        simp at h2
      | ok current =>
        have h2 : (if f.updateQ = true then
            ((Except.error Err.storeFailure : Except Err CountRow), stMid)
          else
            match stMid.counts.find? (fun r => r.id = current.id) with
            | none => ((Except.error Err.noRows : Except Err CountRow), stMid)
            | some r =>
              (Except.ok { r with value := applyDeltaValue current.value delta },
               { stMid with counts := stMid.counts.map (fun q =>
                   if q.id = current.id then
                     { q with value := applyDeltaValue current.value delta }
                   else q) })) = (Except.ok c, st1) := h
        by_cases hu : f.updateQ = true
        · rw [if_pos hu] at h2
          simp at h2
        · rw [if_neg hu] at h2
          cases hf : stMid.counts.find? (fun r => r.id = current.id) with
          | none =>
            rw [hf] at h2
            simp at h2
          | some r =>
            rw [hf] at h2
            obtain ⟨ha, hb⟩ := Prod.mk.injEq .. ▸ h2
            have hc := Except.ok.inj ha
            subst hc
            subst hb
            refine ⟨applyDeltaValue_nonneg _ _, ?_⟩
            intro q hq
            rcases List.mem_map.1 hq with ⟨q0, hq0, rfl⟩
            by_cases hid : q0.id = current.id
            · simp only [hid, if_true]
              exact applyDeltaValue_nonneg _ _
            · simp only [hid, if_false]
              exact hmid q0 hq0
  case clamp =>
    intro v d h1 h2
    have hw : wrap64 (v + d) = v + d := by
      unfold wrap64
      have ha : 0 ≤ v + d + 2 ^ 63 := by linarith
      have hb : v + d + 2 ^ 63 < 2 ^ 64 := by
        have : (2 : Int) ^ 64 = 2 ^ 63 + 2 ^ 63 := by norm_num
        linarith
      rw [Int.emod_eq_of_lt ha hb]
      ring
    show (if wrap64 (v + d) < 0 then 0 else wrap64 (v + d)) = max 0 (v + d)
    rw [hw]
    rcases le_or_lt 0 (v + d) with hp | hn
    · rw [if_neg (not_lt.2 hp), max_eq_right hp]
    · rw [if_pos hn, max_eq_left hn.le]
  case fresh =>
    intro f st cid freq tz now c st1 h
    unfold createNewCount at h
    cases he : nextExpiryTime freq now tz with
    | error e => rw [he] at h; simp at h
    | ok E =>
      rw [he] at h
      have h2 : (if f.insertQ = true then
          ((Except.error Err.storeFailure : Except Err CountRow), st)
        else
          (Except.ok (⟨st.nextCountId, cid, 0, E, now⟩ : CountRow),
           { st with
               counts := st.counts ++ [⟨st.nextCountId, cid, 0, E, now⟩],
               nextCountId := st.nextCountId + 1 })) = (.ok c, st1) := h
      by_cases hf : f.insertQ = true
      · rw [if_pos hf] at h2
        simp at h2
      · rw [if_neg hf] at h2
        obtain ⟨ha, hb⟩ := Prod.mk.injEq .. ▸ h2
        have hc := Except.ok.inj ha
        subst hc
        rfl

/-- Claim C2 witness: at value 3 with delta -2 the result value is 1 and all
stored values stay non-negative; the clamp formula agrees with
max(0, 3 + -2); a freshly created count has value 0. -/
theorem countValue_nonneg_clamped_witness :
    (0 ≤ (⟨0, 1, 1, 3600, 0⟩ : CountRow).value ∧
        ValuesWF { stValueC2 with counts := [⟨0, 1, 1, 3600, 0⟩] }) ∧
    applyDeltaValue 3 (-2) = max 0 (3 + -2) ∧
    (⟨1, 1, 0, 3600, 0⟩ : CountRow).value = 0 := by
  have hv : ValuesWF stValueC2 := by unfold ValuesWF; decide
  have h1 : incrementCurrentCount noFail stValueC2 1 (-2) 0 =
      (.ok ⟨0, 1, 1, 3600, 0⟩,
       { stValueC2 with counts := [⟨0, 1, 1, 3600, 0⟩] }) := rfl
  have h3 : createNewCount noFail stValueC2 1 "1h" (Loc.fixedOffset 0) 0 =
      (.ok ⟨1, 1, 0, 3600, 0⟩,
       { stValueC2 with counts := stValueC2.counts ++ [⟨1, 1, 0, 3600, 0⟩],
                        nextCountId := 2 }) := rfl
  exact ⟨countValue_nonneg_clamped.1 noFail stValueC2 1 (-2) 0 _ _ hv h1,
    countValue_nonneg_clamped.2.1 3 (-2) (by norm_num) (by norm_num),
    countValue_nonneg_clamped.2.2 noFail stValueC2 1 "1h" (Loc.fixedOffset 0) 0
      _ _ h3⟩

/-- Claim C8: on a well-formed store, a successful delta application writes
through to exactly the count row that `GetOrCreateCurrentCount` resolved: the
returned count is that row with only its value replaced (same id, counter id,
expiry and creation instant), and the store update maps only the row with the
resolved id, leaving every other row untouched. -/
theorem incrementCurrentCount_same_row (st : DB) (cid : Nat) (delta now : Int)
    (cur : CountRow) (st1 : DB) (hwf : WF st) (hd : delta ≠ 0)
    (hg : getOrCreateCurrentCount noFail st cid now = (.ok cur, st1)) :
    incrementCurrentCount noFail st cid delta now =
      (.ok { cur with value := applyDeltaValue cur.value delta },
       { st1 with counts := st1.counts.map (fun q =>
           if q.id = cur.id then
             { q with value := applyDeltaValue cur.value delta }
           else q) }) := by
  have hfind := gcc_ok_find hwf hg
  unfold incrementCurrentCount
  rw [if_neg hd, hg]
  show (if noFail.updateQ = true then
      ((Except.error Err.storeFailure : Except Err CountRow), st1)
    else
      match st1.counts.find? (fun r => r.id = cur.id) with
      | none => ((Except.error Err.noRows : Except Err CountRow), st1)
      | some r =>
        (Except.ok { r with value := applyDeltaValue cur.value delta },
         { st1 with counts := st1.counts.map (fun q =>
             if q.id = cur.id then
               { q with value := applyDeltaValue cur.value delta }
             else q) })) = _
  rw [if_neg (by decide), hfind]

/-- Claim C8 witness: on a store whose counter 1 has the single count
(id 0, value 3, expiry 3600), applying delta -2 at now = 0 returns the same
row with value 1 and updates only that row in place. -/
theorem incrementCurrentCount_same_row_witness :
    incrementCurrentCount noFail stRowC8 1 (-2) 0 =
      (.ok ⟨0, 1, 1, 3600, 0⟩,
       { stRowC8 with counts := [⟨0, 1, 1, 3600, 0⟩] }) := by
  have h := incrementCurrentCount_same_row stRowC8 1 (-2) 0 ⟨0, 1, 3, 3600, 0⟩
    stRowC8 (by unfold WF; decide) (by decide) rfl
  exact h

/-- Claim C3 (amended): for every string of one or more decimal digits
followed by exactly one character from h, d, w (whole string), ParseFrequency
returns that unit character together with the numeric prefix saturated at
2^63 - 1 — exact whenever the prefix's value is below 2^63, since
strconv.Atoi's range error is discarded; every other string fails with the
invalid-format error. -/
theorem parseFrequency_grammar (s : String) :
    (∀ ds u, s.data = ds ++ [u] → ds ≠ [] → (∀ c ∈ ds, c.isDigit = true) →
        (u = 'h' ∨ u = 'd' ∨ u = 'w') →
        parseFrequency s = .ok (min ((digitsVal ds : Int)) maxInt64, u))
    ∧ ((¬ ∃ ds u, s.data = ds ++ [u] ∧ ds ≠ [] ∧
          (∀ c ∈ ds, c.isDigit = true) ∧ (u = 'h' ∨ u = 'd' ∨ u = 'w')) →
        parseFrequency s = .error .invalidFormat) := by
  constructor
  · intro ds u hs hne hdig hu
    have hud : u.isDigit = false := by
      rcases hu with rfl | rfl | rfl <;> decide
    obtain ⟨ht, hdrop⟩ := takeWhile_append_singleton hdig hud
    unfold parseFrequency
    rw [hs, hdrop]
    show (if (u = 'h' ∨ u = 'd' ∨ u = 'w') ∧
        (ds ++ [u]).takeWhile Char.isDigit ≠ [] then
        Except.ok (atoiSat ((ds ++ [u]).takeWhile Char.isDigit), u)
      else Except.error Err.invalidFormat) = _
    rw [ht, if_pos ⟨hu, hne⟩]
    rfl
  · intro hno
    unfold parseFrequency
    cases hdrop : s.data.dropWhile Char.isDigit with
    | nil => rfl
    | cons u rest =>
      cases rest with
      | nil =>
        have hcond : ¬ ((u = 'h' ∨ u = 'd' ∨ u = 'w') ∧
            s.data.takeWhile Char.isDigit ≠ []) := by
          rintro ⟨hu, hne⟩
          have hsplit := List.takeWhile_append_dropWhile Char.isDigit s.data
          rw [hdrop] at hsplit
          exact hno ⟨s.data.takeWhile Char.isDigit, u, hsplit.symm, hne,
            fun c hc => List.mem_takeWhile_imp hc, hu⟩
        show (if (u = 'h' ∨ u = 'd' ∨ u = 'w') ∧
            s.data.takeWhile Char.isDigit ≠ [] then
            Except.ok (atoiSat (s.data.takeWhile Char.isDigit), u)
          else Except.error Err.invalidFormat) = Except.error Err.invalidFormat
        rw [if_neg hcond]
      | cons v rest2 => rfl

/-- Claim C3 witness: "10h" parses to multiplier 10 and unit h. -/
theorem parseFrequency_grammar_witness :
    parseFrequency "10h" = .ok (10, 'h') := by
  have h := (parseFrequency_grammar "10h").1 ['1', '0'] 'h' rfl (by decide)
    (by decide) (Or.inl rfl)
  have hmin : min ((digitsVal ['1', '0'] : Nat) : Int) maxInt64 = 10 := by
    decide
  rw [hmin] at h
  exact h

/-- Claim C9 (amended): every accepted specifier yields a multiplier ≥ 0, and
the multiplier is ≥ 1 whenever the digit prefix has nonzero numeric value; an
all-zero prefix such as "0h" is accepted with multiplier 0, so the claim's
unconditional lower bound of 1 does not hold. -/
theorem parseFrequency_multiplier_lower_bound (s : String) (n : Int) (u : Char)
    (h : parseFrequency s = .ok (n, u)) :
    0 ≤ n ∧ (digitsVal (s.data.takeWhile Char.isDigit) ≠ 0 → 1 ≤ n) := by
  unfold parseFrequency at h
  split at h
  · split at h
    · have h2 := Except.ok.inj h
      have hn : atoiSat (s.data.takeWhile Char.isDigit) = n :=
        congrArg Prod.fst h2
      subst hn
      unfold atoiSat
      constructor
      · exact le_min (Int.natCast_nonneg _) (by norm_num [maxInt64])
      · intro hv
        refine le_min ?_ (by norm_num [maxInt64])
        exact_mod_cast Nat.one_le_iff_ne_zero.2 hv
    · simp at h
  · simp at h

/-- Claim C9 witness: "2d" is accepted with multiplier 2, which is ≥ 0, and
since its digit prefix is nonzero the multiplier is ≥ 1. -/
theorem parseFrequency_multiplier_lower_bound_witness :
    parseFrequency "2d" = .ok (2, 'd') ∧ (0 : Int) ≤ 2 ∧ (1 : Int) ≤ 2 := by
  have h := parseFrequency_multiplier_lower_bound "2d" 2 'd' rfl
  exact ⟨rfl, h.1, h.2 (by decide)⟩
